import Mathlib

/-!
Shallow embedding of the spectr bytecode compiler (`src/stack.rs`) and the
fragments of the runtime value model (`src/types.rs`, `src/eval.rs`) needed to
settle the specification claims.  Rust `f64` literal payloads are carried
opaquely by the emitter (no claim inspects them), so they are modelled by
`Int`; `Rc<String>` payloads are modelled by `String`; the host closure inside
`Cmd::ForeignFunction` is not inspected by any claim and is modelled by a
nullary constructor.  Fallible code (the `panic!` on an unresolved identifier)
is modelled with `Except String`.
-/
namespace Spectr

/-- The instruction set emitted by `Translator` (`src/stack.rs`, `enum Cmd`).
`StructAddr`'s `Rc<HashMap<String, usize>>` payload is modelled as an
association list built with HashMap insert semantics (`mapInsert`). -/
inductive Cmd where
  | Add
  | Sub
  | Div
  | Mul
  | Surplus
  | Equal
  | NotEqual
  | Load (index : Nat) (depth : Nat)
  | NumberConst (v : Int)
  | StringConst (s : String)
  | ArrayConst (n : Nat)
  | ConstructFunction (len : Nat)
  | ForeignFunction
  | StructAddr (map : List (String × Nat))
  | Label (id : Nat) (len : Nat)
  | LabelAddr (id : Nat)
  | JumpRel (n : Nat)
  | JumpRelIf (n : Nat)
  | Call (arity : Nat)
  | Index
  | Access
deriving DecidableEq, Repr

/-- Resolution result for a name (`src/stack.rs`, `enum Identifier`). -/
inductive Identifier where
  | Bind (id : Nat)
  | Arg (index : Nat)
deriving DecidableEq, Repr

/- Abstract syntax consumed by the emitter (`src/token.rs` is external; the
node kinds are exactly those matched by `src/stack.rs` and listed in spec §6). -/
mutual

inductive Expression where
  | Comparison (a : Comparison)
  | If (cond : Expression) (cons : Expression) (alt : Expression)

inductive Comparison where
  | mk (left : Additive) (rights : List ComparisonRight)

inductive ComparisonRight where
  | Equal (r : Additive)
  | NotEqual (r : Additive)

inductive Additive where
  | mk (left : Multitive) (rights : List AdditiveRight)

inductive AdditiveRight where
  | Add (r : Multitive)
  | Sub (r : Multitive)

inductive Multitive where
  | mk (left : Operation) (rights : List MultitiveRight)

inductive MultitiveRight where
  | Mul (r : Operation)
  | Div (r : Operation)
  | Surplus (r : Operation)

inductive Operation where
  | mk (left : Primary) (rights : List OperationRight)

inductive OperationRight where
  | Access (name : String)
  | Call (args : List Expression)
  | Index (arg : Expression)

inductive Primary where
  | Number (v : Int)
  | String (s : String)
  | Variable (name : String)
  | Block (statement : Statement)
  | Function (args : List String) (body : Expression)
  | Struct (definitions : List (String × Expression))
  | Array (items : List Expression)

inductive Statement where
  | mk (definitions : List (String × Expression)) (body : Expression)

end

/-- Alias mirroring `type AST = Statement`: `get_cmd` consumes a whole statement. -/
abbrev AST := Statement

/-- Compile-time scope frame (`src/stack.rs`, `struct Translator`): a local
name table, the bind counter, and an optional parent frame.  The
`HashMap<String, Identifier>` is modelled as an association list where the
most recent insert is at the head (`envLookup` returns the first hit, matching
HashMap lookup after overwriting inserts). -/
inductive Translator where
  | mk (env : List (String × Identifier)) (bind_cnt : Nat) (parent : Option Translator)

def Translator.env : Translator → List (String × Identifier)
  | .mk e _ _ => e

def Translator.bind_cnt : Translator → Nat
  | .mk _ c _ => c

def Translator.parent : Translator → Option Translator
  | .mk _ _ p => p

/-- Lookup (`HashMap::get`) on the association-list model: first, most recent, hit. -/
def envLookup (env : List (String × Identifier)) (name : String) : Option Identifier :=
  match env with
  | [] => none
  | (k, v) :: rest => if k = name then some v else envLookup rest name

/-- Insert (`HashMap::insert`) on the `StructAddr` payload model: replace the
value of an existing key, otherwise append. -/
def mapInsert (m : List (String × Nat)) (k : String) (v : Nat) : List (String × Nat) :=
  match m with
  | [] => [(k, v)]
  | (k', v') :: rest => if k' = k then (k, v) :: rest else (k', v') :: mapInsert rest k v

/-- Lookup on the `StructAddr` payload model. -/
def mapLookup (m : List (String × Nat)) (name : String) : Option Nat :=
  match m with
  | [] => none
  | (k, v) :: rest => if k = name then some v else mapLookup rest name

/-- Constructor `Translator::new`. -/
def Translator.new : Translator := .mk [] 0 none

/-- Method `Translator::fork`: empty local table, the parent's current counter
value, and a reference to the parent. -/
def fork (t : Translator) : Translator := .mk [] t.bind_cnt (some t)

/-- Method `Translator::get_bind`: local table first (depth 0), otherwise the
parent chain (`map_or_else` over the local lookup, `and_then` over the
parent) with the depth incremented per hop. -/
def get_bind : Translator → String → Option (Identifier × Nat)
  | .mk env _ none, name =>
    (envLookup env name).elim none (fun addr => some (addr, 0))
  | .mk env _ (some p), name =>
    (envLookup env name).elim
      ((get_bind p name).map (fun r => (r.1, r.2 + 1)))
      (fun addr => some (addr, 0))

/-- Error-propagating sequencing for the emitter (`panic!` is modelled as
`Except.error`). -/
def ebind (x : Except String (List Cmd)) (f : List Cmd → Except String (List Cmd)) :
    Except String (List Cmd) :=
  match x with
  | .error e => .error e
  | .ok v => f v

/-- Phase 1 of `Translator::translate` / the `Struct` arm: register each
definition under a fresh consecutive id (insert into the frame's table, bump
the counter). -/
def register_binds (env : List (String × Identifier)) (cnt : Nat) :
    List (String × Expression) → List (String × Identifier) × Nat
  | [] => (env, cnt)
  | (name, _) :: rest => register_binds ((name, Identifier.Bind cnt) :: env) (cnt + 1) rest

/-- The `map.insert(bind.0.clone(), id)` loop of the `Struct` arm. -/
def build_map (m : List (String × Nat)) (cnt : Nat) :
    List (String × Expression) → List (String × Nat)
  | [] => m
  | (name, _) :: rest => build_map (mapInsert m name cnt) (cnt + 1) rest

/-- The argument-registration loop of the `Function` arm:
`env.insert(arg, Arg(i))` for each parameter at its positional index. -/
def insert_args (env : List (String × Identifier)) (i : Nat) :
    List String → List (String × Identifier)
  | [] => env
  | a :: rest => insert_args ((a, Identifier.Arg i) :: env) (i + 1) rest

/-- Method `Translator::translate_identifier`: a resolved Bind becomes
`LabelAddr; Call(0)`, a resolved Arg becomes `Load(index, depth)`; an
unresolved name is the fatal `panic!`. -/
def translate_identifier (t : Translator) (name : String) : Except String (List Cmd) :=
  match get_bind t name with
  | none => .error ("could not find bind by \"" ++ name ++ "\"")
  | some (Identifier.Bind id, _) => .ok [Cmd.LabelAddr id, Cmd.Call 0]
  | some (Identifier.Arg id, depth) => .ok [Cmd.Load id depth]

/- The mutual block mirrors the mutually recursive methods of
`impl Translator` in `src/stack.rs`. -/
mutual

/-- Method `Translator::translate`: the reserved `import` label, then one label per
definition (ids assigned in a first pass, bodies emitted in a second), then
the trailing expression. -/
def translate (t : Translator) (v : Statement) : Except String (List Cmd) :=
  match v with
  | .mk definitions body =>
    let id := t.bind_cnt
    let t1 : Translator :=
      .mk (("import", Identifier.Bind id) :: t.env) (t.bind_cnt + 1) t.parent
    let reg := register_binds t1.env t1.bind_cnt definitions
    let t2 : Translator := .mk reg.1 reg.2 t1.parent
    ebind (translate_bodies t2 t1.bind_cnt definitions) fun defs_cmd =>
    ebind (translate_expression t2 body) fun body_cmd =>
    .ok ([Cmd.Label id 1, Cmd.ForeignFunction] ++ defs_cmd ++ body_cmd)

/-- Phase 2 of `Translator::translate` / the `Struct` arm: emit
`Label(id, len)` followed by the body for each definition, ids consecutive
from `start`. -/
def translate_bodies (t : Translator) (start : Nat) :
    List (String × Expression) → Except String (List Cmd)
  | [] => .ok []
  | (_, body) :: rest =>
    ebind (translate_expression t body) fun body_cmd =>
    ebind (translate_bodies t (start + 1) rest) fun rest_cmd =>
    .ok (Cmd.Label start body_cmd.length :: body_cmd ++ rest_cmd)

/-- Method `Translator::translate_expression`. -/
def translate_expression (t : Translator) (v : Expression) : Except String (List Cmd) :=
  match v with
  | .Comparison a => translate_comparison t a
  | .If cond cons alt =>
    ebind (translate_expression t cond) fun cond_cmd =>
    ebind (translate_expression t cons) fun cons_cmd =>
    ebind (translate_expression t alt) fun alt_cmd0 =>
    let alt_cmd := alt_cmd0 ++ [Cmd.JumpRel (cons_cmd.length + 1)]
    .ok (cond_cmd ++ [Cmd.JumpRelIf (alt_cmd.length + 1)] ++ alt_cmd ++ cons_cmd)

/-- Method `Translator::translate_comparison`. -/
def translate_comparison (t : Translator) (v : Comparison) : Except String (List Cmd) :=
  match v with
  | .mk left rights =>
    ebind (translate_additive t left) fun left_cmd =>
    ebind (translate_comparison_rights t rights) fun rest_cmd =>
    .ok (left_cmd ++ rest_cmd)

/-- The right-hand loop of `translate_comparison`. -/
def translate_comparison_rights (t : Translator) :
    List ComparisonRight → Except String (List Cmd)
  | [] => .ok []
  | .Equal r :: rest =>
    ebind (translate_additive t r) fun r_cmd =>
    ebind (translate_comparison_rights t rest) fun rest_cmd =>
    .ok (r_cmd ++ [Cmd.Equal] ++ rest_cmd)
  | .NotEqual r :: rest =>
    ebind (translate_additive t r) fun r_cmd =>
    ebind (translate_comparison_rights t rest) fun rest_cmd =>
    .ok (r_cmd ++ [Cmd.NotEqual] ++ rest_cmd)

/-- Method `Translator::translate_additive`. -/
def translate_additive (t : Translator) (v : Additive) : Except String (List Cmd) :=
  match v with
  | .mk left rights =>
    ebind (translate_multitive t left) fun left_cmd =>
    ebind (translate_additive_rights t rights) fun rest_cmd =>
    .ok (left_cmd ++ rest_cmd)

/-- The right-hand loop of `translate_additive`. -/
def translate_additive_rights (t : Translator) :
    List AdditiveRight → Except String (List Cmd)
  | [] => .ok []
  | .Add r :: rest =>
    ebind (translate_multitive t r) fun r_cmd =>
    ebind (translate_additive_rights t rest) fun rest_cmd =>
    .ok (r_cmd ++ [Cmd.Add] ++ rest_cmd)
  | .Sub r :: rest =>
    ebind (translate_multitive t r) fun r_cmd =>
    ebind (translate_additive_rights t rest) fun rest_cmd =>
    .ok (r_cmd ++ [Cmd.Sub] ++ rest_cmd)

/-- Method `Translator::translate_multitive`. -/
def translate_multitive (t : Translator) (v : Multitive) : Except String (List Cmd) :=
  match v with
  | .mk left rights =>
    ebind (translate_operation t left) fun left_cmd =>
    ebind (translate_multitive_rights t rights) fun rest_cmd =>
    .ok (left_cmd ++ rest_cmd)

/-- The right-hand loop of `translate_multitive`. -/
def translate_multitive_rights (t : Translator) :
    List MultitiveRight → Except String (List Cmd)
  | [] => .ok []
  | .Mul r :: rest =>
    ebind (translate_operation t r) fun r_cmd =>
    ebind (translate_multitive_rights t rest) fun rest_cmd =>
    .ok (r_cmd ++ [Cmd.Mul] ++ rest_cmd)
  | .Div r :: rest =>
    ebind (translate_operation t r) fun r_cmd =>
    ebind (translate_multitive_rights t rest) fun rest_cmd =>
    .ok (r_cmd ++ [Cmd.Div] ++ rest_cmd)
  | .Surplus r :: rest =>
    ebind (translate_operation t r) fun r_cmd =>
    ebind (translate_multitive_rights t rest) fun rest_cmd =>
    .ok (r_cmd ++ [Cmd.Surplus] ++ rest_cmd)

/-- Method `Translator::translate_operation`. -/
def translate_operation (t : Translator) (v : Operation) : Except String (List Cmd) :=
  match v with
  | .mk left rights =>
    ebind (translate_primary t left) fun left_cmd =>
    ebind (translate_operation_rights t rights) fun rest_cmd =>
    .ok (left_cmd ++ rest_cmd)

/-- The postfix loop of `translate_operation`: property access, call,
indexing. -/
def translate_operation_rights (t : Translator) :
    List OperationRight → Except String (List Cmd)
  | [] => .ok []
  | .Access name :: rest =>
    ebind (translate_operation_rights t rest) fun rest_cmd =>
    .ok ([Cmd.StringConst name, Cmd.Access, Cmd.Call 0] ++ rest_cmd)
  | .Call args :: rest =>
    ebind (translate_args t args) fun args_cmd =>
    ebind (translate_operation_rights t rest) fun rest_cmd =>
    .ok (args_cmd ++ [Cmd.Call args.length] ++ rest_cmd)
  | .Index arg :: rest =>
    ebind (translate_expression t arg) fun arg_cmd =>
    ebind (translate_operation_rights t rest) fun rest_cmd =>
    .ok (arg_cmd ++ [Cmd.Index, Cmd.Call 0] ++ rest_cmd)

/-- The argument loop of the `Call` postfix: arguments emitted left to
right. -/
def translate_args (t : Translator) : List Expression → Except String (List Cmd)
  | [] => .ok []
  | e :: rest =>
    ebind (translate_expression t e) fun e_cmd =>
    ebind (translate_args t rest) fun rest_cmd =>
    .ok (e_cmd ++ rest_cmd)

/-- Method `Translator::translate_primary`. -/
def translate_primary (t : Translator) (v : Primary) : Except String (List Cmd) :=
  match v with
  | .Number v => .ok [Cmd.NumberConst v]
  | .String s => .ok [Cmd.StringConst s]
  | .Variable name => translate_identifier t name
  | .Block statement => translate (fork t) statement
  | .Function args body =>
    let child : Translator := .mk (insert_args [] 0 args) (fork t).bind_cnt (some t)
    ebind (translate_expression child body) fun body_cmd =>
    .ok (Cmd.ConstructFunction body_cmd.length :: body_cmd)
  | .Struct definitions =>
    let start := (fork t).bind_cnt
    let reg := register_binds [] start definitions
    let child : Translator := .mk reg.1 reg.2 (some t)
    let map := build_map [] start definitions
    ebind (translate_bodies child start definitions) fun defs_cmd =>
    .ok (defs_cmd ++ [Cmd.StructAddr map])
  | .Array items =>
    ebind (translate_array t items) fun items_cmd =>
    .ok (items_cmd ++ [Cmd.ArrayConst items.length])

/-- The element loop of the `Array` arm: every element's body is wrapped in a
zero-argument `ConstructFunction` carrying the body's length. -/
def translate_array (t : Translator) : List Expression → Except String (List Cmd)
  | [] => .ok []
  | item :: rest =>
    ebind (translate_expression t item) fun item_cmd =>
    ebind (translate_array t rest) fun rest_cmd =>
    .ok (Cmd.ConstructFunction item_cmd.length :: item_cmd ++ rest_cmd)

end

/-- Entry point `get_cmd`: compile an AST with a fresh translator. -/
def get_cmd (ast : AST) : Except String (List Cmd) :=
  translate Translator.new ast

/-- Wrap a `Primary` into a full `Expression` chain with no operators. -/
def exprOfPrimary (p : Primary) : Expression :=
  .Comparison (.mk (.mk (.mk (.mk p []) []) []) [])

/-- An `Expression` that is a bare number literal. -/
def numE (n : Int) : Expression := exprOfPrimary (.Number n)

/-- An `Expression` that is a bare identifier occurrence. -/
def varE (name : String) : Expression := exprOfPrimary (.Variable name)

/-- Specification-side emitter for operator chains (spec §4.2): emit the left
operand, then for each right-hand operand emit that operand followed by its
single binary opcode, folding left to right. -/
def chainEmit (left : Except String (List Cmd)) :
    List (Except String (List Cmd) × Cmd) → Except String (List Cmd)
  | [] => left
  | (r, op) :: rest =>
    chainEmit (ebind left fun l => ebind r fun rc => .ok (l ++ rc ++ [op])) rest

/-- The compiled right-hand part of a chain on its own. -/
def chainTail : List (Except String (List Cmd) × Cmd) → Except String (List Cmd)
  | [] => .ok []
  | (r, op) :: rest =>
    ebind r fun rc => ebind (chainTail rest) fun rest_cmd => .ok (rc ++ [op] ++ rest_cmd)

def comparisonOperand : ComparisonRight → Additive
  | .Equal r => r
  | .NotEqual r => r

def comparisonOp : ComparisonRight → Cmd
  | .Equal _ => Cmd.Equal
  | .NotEqual _ => Cmd.NotEqual

def additiveOperand : AdditiveRight → Multitive
  | .Add r => r
  | .Sub r => r

def additiveOp : AdditiveRight → Cmd
  | .Add _ => Cmd.Add
  | .Sub _ => Cmd.Sub

def multitiveOperand : MultitiveRight → Operation
  | .Mul r => r
  | .Div r => r
  | .Surplus r => r

def multitiveOp : MultitiveRight → Cmd
  | .Mul _ => Cmd.Mul
  | .Div _ => Cmd.Div
  | .Surplus _ => Cmd.Surplus

/-- One zero-argument `ConstructFunction` wrapper, carrying the body length,
per element body. -/
def thunkSegs : List (List Cmd) → List Cmd
  | [] => []
  | b :: rest => Cmd.ConstructFunction b.length :: b ++ thunkSegs rest

/-- The emitted shape of a definition list: a `Label id len` head followed by
the compiled body, one segment per definition, ids consecutive from the
starting counter. -/
def flatSegs : Nat → List (List Cmd) → List Cmd
  | _, [] => []
  | start, b :: rest => Cmd.Label start b.length :: b ++ flatSegs (start + 1) rest

/-- Only the label markers of `flatSegs`, in order. -/
def markersOf : Nat → List (List Cmd) → List Cmd
  | _, [] => []
  | start, b :: rest => Cmd.Label start b.length :: markersOf (start + 1) rest

/-- Modelled from the spec: the executor (`vm.rs`) is not among the sources;
per §4.3 a `Label(id, len)` marker is never executed directly by straight-line
flow and must be skipped over together with its body of `len` instructions,
while every other instruction is reached and flow proceeds to its successor.
`slExec` lists the instructions that straight-line flow reaches. -/
def slExec : List Cmd → List Cmd
  | [] => []
  | Cmd.Label id len :: rest => Cmd.Label id len :: slExec (rest.drop len)
  | Cmd.StructAddr m :: rest => Cmd.StructAddr m :: slExec rest
  | c :: rest => c :: slExec rest
termination_by l => l.length
decreasing_by
  all_goals simp [List.length_drop]
  all_goals omega

/-- The forked child translator of the `Struct` arm after every field name is
registered under its fresh id. -/
def structChild (t : Translator) (defs : List (String × Expression)) : Translator :=
  .mk (register_binds [] t.bind_cnt defs).1 (register_binds [] t.bind_cnt defs).2 (some t)

/-- Index of the last occurrence of a name in a definition list, offset by
`i`. -/
def lastIdxFrom (i : Nat) (name : String) : List (String × Expression) → Option Nat
  | [] => none
  | (n, _) :: rest =>
    (lastIdxFrom (i + 1) name rest).elim (if n = name then some i else none) some

/-- The counterexample compilation unit: an array literal holding two sibling
struct literals. -/
def astC1 : AST :=
  .mk [] (exprOfPrimary (.Array
    [exprOfPrimary (.Struct [("a", numE 1)]),
     exprOfPrimary (.Struct [("b", numE 2)])]))

/-- The full instruction stream `get_cmd` emits for `astC1`. -/
def progC1 : List Cmd :=
  [Cmd.Label 0 1, Cmd.ForeignFunction,
   Cmd.ConstructFunction 3, Cmd.Label 1 1, Cmd.NumberConst 1,
   Cmd.StructAddr [("a", 1)],
   Cmd.ConstructFunction 3, Cmd.Label 1 1, Cmd.NumberConst 2,
   Cmd.StructAddr [("b", 1)],
   Cmd.ArrayConst 2]

def isLabelWithId (id : Nat) : Cmd → Bool
  | .Label i _ => i == id
  | _ => false

/-- How many `Label` instructions with the given id a stream contains. -/
def countLabelId (id : Nat) (prog : List Cmd) : Nat :=
  (prog.filter (isLabelWithId id)).length

/-- Names registered by one registration pass, paired with their consecutive
ids. -/
def enum_ids (cnt : Nat) : List (String × Expression) → List (String × Identifier)
  | [] => []
  | (n, _) :: rest => (n, Identifier.Bind cnt) :: enum_ids (cnt + 1) rest

/-- Runtime value model of the tree-walking evaluator (`src/types.rs`,
`enum Type`).  The payload types whose definitions live outside the sources
(`list::List`, the `Map`, `Function`, `Native`, and `NativeCallable`
payloads) are abstracted as type parameters carrying their own equality,
mirroring the `PartialEq` impls the derived equality on `Type` delegates to;
`f64` is likewise abstracted as `F` with its own equality. -/
inductive Ty (F L M Fn N C : Type) where
  | Number (v : F)
  | String (s : String)
  | List (l : L)
  | Map (m : M)
  | Function (f : Fn)
  | Boolean (b : Bool)
  | Native (n : N)
  | NativeCallable (c : C)

/-- The derived `PartialEq::eq` on `Type`: pairwise per variant, each payload
compared by its own equality, two values of different variants never equal. -/
def tyEq {F L M Fn N C : Type} [BEq F] [BEq L] [BEq M] [BEq Fn] [BEq N] [BEq C] :
    Ty F L M Fn N C → Ty F L M Fn N C → Bool
  | .Number a, .Number b => a == b
  | .String a, .String b => a == b
  | .List a, .List b => a == b
  | .Map a, .Map b => a == b
  | .Function a, .Function b => a == b
  | .Boolean a, .Boolean b => a == b
  | .Native a, .Native b => a == b
  | .NativeCallable a, .NativeCallable b => a == b
  | _, _ => false

/-- Discriminant of a `Ty` value. -/
def tyTag {F L M Fn N C : Type} : Ty F L M Fn N C → Nat
  | .Number _ => 0
  | .String _ => 1
  | .List _ => 2
  | .Map _ => 3
  | .Function _ => 4
  | .Boolean _ => 5
  | .Native _ => 6
  | .NativeCallable _ => 7

/-- Comparison operator kinds (`token::ComparisonKind`) as consumed by the
evaluator. -/
inductive ComparisonKind where
  | Equal
  | NotEqual

/-- One fold step of the `Comparison` evaluation (`src/eval.rs`): the running
base becomes a `Boolean` holding `base == value` or `base != value`. -/
def compareStep {F L M Fn N C : Type} [BEq F] [BEq L] [BEq M] [BEq Fn] [BEq N] [BEq C]
    (kind : ComparisonKind) (base value : Ty F L M Fn N C) : Ty F L M Fn N C :=
  match kind with
  | .Equal => .Boolean (tyEq base value)
  | .NotEqual => .Boolean (!tyEq base value)

/-- Two name tables are the same resolver state when every lookup agrees
(representation-independent: HashMap iteration order never reaches the
output). -/
def EnvEquiv (e1 e2 : List (String × Identifier)) : Prop :=
  ∀ name, envLookup e1 name = envLookup e2 name

/-- Same resolver state for whole frames: identical counters, observationally
equal tables, equivalent parent chains. -/
inductive TEquiv : Translator → Translator → Prop where
  | root {e1 e2 : List (String × Identifier)} {c : Nat} :
      EnvEquiv e1 e2 → TEquiv (.mk e1 c none) (.mk e2 c none)
  | child {e1 e2 : List (String × Identifier)} {c : Nat} {p1 p2 : Translator} :
      EnvEquiv e1 e2 → TEquiv p1 p2 → TEquiv (.mk e1 c (some p1)) (.mk e2 c (some p2))

@[simp] theorem ebind_ok (v : List Cmd) (f : List Cmd → Except String (List Cmd)) :
    ebind (.ok v) f = f v := rfl

@[simp] theorem ebind_error (e : String) (f : List Cmd → Except String (List Cmd)) :
    ebind (.error e) f = .error e := rfl

/-- C2: For every `If(cond, cons, alt)` the emitter produces the instructions
of `cond`, one conditional relative jump, the instructions of `alt` followed
by one unconditional relative jump, then the instructions of `cons` (the
alternate branch before the consequent); the conditional jump's distance
lands exactly at the first instruction of the consequent (skipping the whole
alternate branch including its trailing jump) and the trailing jump's
distance lands exactly past the end of the consequent, for every possible
branch-body length. -/
theorem if_emission_layout (t : Translator) (cond cons alt : Expression)
    (c k a : List Cmd)
    (hc : translate_expression t cond = .ok c)
    (hk : translate_expression t cons = .ok k)
    (ha : translate_expression t alt = .ok a) :
    translate_expression t (.If cond cons alt) =
      .ok (c ++ [Cmd.JumpRelIf (a.length + 2)] ++
        (a ++ [Cmd.JumpRel (k.length + 1)]) ++ k) ∧
    c.length + (a.length + 2) =
      (c ++ [Cmd.JumpRelIf (a.length + 2)] ++ (a ++ [Cmd.JumpRel (k.length + 1)])).length ∧
    (c.length + 1 + a.length) + (k.length + 1) =
      (c ++ [Cmd.JumpRelIf (a.length + 2)] ++
        (a ++ [Cmd.JumpRel (k.length + 1)]) ++ k).length := by
  refine ⟨?_, ?_, ?_⟩
  · simp [translate_expression, hc, hk, ha]
  · simp
  · simp
    omega

/-- Closed instance of `if_emission_layout` at a concrete conditional with
literal branches. -/
theorem if_emission_layout_witness :
    translate_expression Translator.new (.If (numE 1) (numE 2) (numE 3)) =
      .ok ([Cmd.NumberConst 1] ++ [Cmd.JumpRelIf 3] ++
        ([Cmd.NumberConst 3] ++ [Cmd.JumpRel 2]) ++ [Cmd.NumberConst 2]) :=
  (if_emission_layout Translator.new (numE 1) (numE 2) (numE 3)
    [Cmd.NumberConst 1] [Cmd.NumberConst 2] [Cmd.NumberConst 3] rfl rfl rfl).1

/-- C4: A name that resolves to a Bind emits a push-label-address instruction
followed by a zero-arity `Call` (independent of the resolution depth); a name
that resolves to an Arg emits a single `Load(index, depth)`.  The depth is
the number of parent hops: a local hit reports depth 0, and a miss in the
local table defers to the parent with the depth incremented. -/
theorem identifier_emission :
    (∀ (t : Translator) (name : String) (r : Identifier × Nat),
      get_bind t name = some r →
      translate_identifier t name = .ok (match r with
        | (Identifier.Bind id, _) => [Cmd.LabelAddr id, Cmd.Call 0]
        | (Identifier.Arg id, depth) => [Cmd.Load id depth])) ∧
    (∀ (env : List (String × Identifier)) (cnt : Nat) (p : Option Translator)
      (name : String) (v : Identifier), envLookup env name = some v →
      get_bind (.mk env cnt p) name = some (v, 0)) ∧
    (∀ (env : List (String × Identifier)) (cnt : Nat) (p : Translator)
      (name : String), envLookup env name = none →
      get_bind (.mk env cnt (some p)) name =
        (get_bind p name).map (fun r => (r.1, r.2 + 1))) := by
  refine ⟨?_, ?_, ?_⟩
  · intro t name r h
    cases r with
    | mk i d =>
      cases i with
      | Bind id => simp [translate_identifier, h]
      | Arg id => simp [translate_identifier, h]
  · intro env cnt p name v h
    cases p <;> simp [get_bind, h]
  · intro env cnt p name h
    simp [get_bind, h]

/-- Closed instance of `identifier_emission`: an Arg found one hop up the
parent chain loads with depth 1, a Bind emits address plus zero-arity call. -/
theorem identifier_emission_witness :
    translate_identifier
        (.mk [] 5 (some (.mk [("x", Identifier.Arg 2)] 5 none))) "x" =
      .ok [Cmd.Load 2 1] ∧
    translate_identifier (.mk [("y", Identifier.Bind 3)] 4 none) "y" =
      .ok [Cmd.LabelAddr 3, Cmd.Call 0] ∧
    get_bind (.mk [("x", Identifier.Arg 2)] 5 none) "x" = some (Identifier.Arg 2, 0) ∧
    get_bind (.mk [] 5 (some (.mk [("x", Identifier.Arg 2)] 5 none))) "x" =
      ((get_bind (.mk [("x", Identifier.Arg 2)] 5 none) "x").map
        (fun r => (r.1, r.2 + 1))) :=
  ⟨identifier_emission.1 _ "x" (Identifier.Arg 2, 1) rfl,
   identifier_emission.1 _ "y" (Identifier.Bind 3, 0) rfl,
   identifier_emission.2.1 _ 5 none "x" (Identifier.Arg 2) rfl,
   identifier_emission.2.2 _ 5 _ "x" rfl⟩

theorem chainEmit_eq (pairs : List (Except String (List Cmd) × Cmd))
    (left : Except String (List Cmd)) :
    chainEmit left pairs =
      ebind left fun l => ebind (chainTail pairs) fun r => .ok (l ++ r) := by
  induction pairs generalizing left with
  | nil => cases left <;> simp [chainEmit, chainTail]
  | cons p rest ih =>
    obtain ⟨r, op⟩ := p
    rw [chainEmit, ih]
    cases left with
    | error e => simp
    | ok l =>
      cases r with
      | error e => simp [chainTail]
      | ok rc =>
        simp only [ebind_ok, chainTail]
        cases chainTail rest with
        | error e => simp
        | ok rr => simp

theorem comparison_rights_eq_chainTail (t : Translator) (rights : List ComparisonRight) :
    translate_comparison_rights t rights =
      chainTail (rights.map fun r => (translate_additive t (comparisonOperand r), comparisonOp r)) := by
  induction rights with
  | nil => rfl
  | cons r rest ih =>
    cases r <;>
      simp [translate_comparison_rights, chainTail, comparisonOperand, comparisonOp, ih]

theorem additive_rights_eq_chainTail (t : Translator) (rights : List AdditiveRight) :
    translate_additive_rights t rights =
      chainTail (rights.map fun r => (translate_multitive t (additiveOperand r), additiveOp r)) := by
  induction rights with
  | nil => rfl
  | cons r rest ih =>
    cases r <;>
      simp [translate_additive_rights, chainTail, additiveOperand, additiveOp, ih]

theorem multitive_rights_eq_chainTail (t : Translator) (rights : List MultitiveRight) :
    translate_multitive_rights t rights =
      chainTail (rights.map fun r => (translate_operation t (multitiveOperand r), multitiveOp r)) := by
  induction rights with
  | nil => rfl
  | cons r rest ih =>
    cases r <;>
      simp [translate_multitive_rights, chainTail, multitiveOperand, multitiveOp, ih]

/-- C5: Comparison, additive, and multiplicative chains compile
left-associatively: the left operand's instructions first, then for each
right-hand operand in source order that operand's instructions followed by
the single binary opcode of its operator. -/
theorem chains_left_associative (t : Translator) :
    (∀ left rights, translate_comparison t (.mk left rights) =
      chainEmit (translate_additive t left)
        (rights.map fun r => (translate_additive t (comparisonOperand r), comparisonOp r))) ∧
    (∀ left rights, translate_additive t (.mk left rights) =
      chainEmit (translate_multitive t left)
        (rights.map fun r => (translate_multitive t (additiveOperand r), additiveOp r))) ∧
    (∀ left rights, translate_multitive t (.mk left rights) =
      chainEmit (translate_operation t left)
        (rights.map fun r => (translate_operation t (multitiveOperand r), multitiveOp r))) := by
  refine ⟨?_, ?_, ?_⟩ <;> intro left rights
  · rw [chainEmit_eq, translate_comparison, comparison_rights_eq_chainTail]
  · rw [chainEmit_eq, translate_additive, additive_rights_eq_chainTail]
  · rw [chainEmit_eq, translate_multitive, multitive_rights_eq_chainTail]

theorem translate_array_eq_thunkSegs (t : Translator) {items : List Expression}
    {bodies : List (List Cmd)}
    (h : List.Forall₂ (fun e b => translate_expression t e = Except.ok b) items bodies) :
    translate_array t items = .ok (thunkSegs bodies) := by
  induction h with
  | nil => rfl
  | cons h1 h2 ih => simp [translate_array, h1, ih, thunkSegs]

/-- C6: An array literal of N elements emits, per element, the element's
compiled body wrapped in its own zero-argument `ConstructFunction` carrying
that body's length, and after all elements a single `ArrayConst N`. -/
theorem array_elements_thunked (t : Translator) (items : List Expression)
    (bodies : List (List Cmd))
    (h : List.Forall₂ (fun e b => translate_expression t e = Except.ok b) items bodies) :
    translate_primary t (.Array items) =
      .ok (thunkSegs bodies ++ [Cmd.ArrayConst items.length]) ∧
    items.length = bodies.length := by
  constructor
  · simp [translate_primary, translate_array_eq_thunkSegs t h]
  · exact h.length_eq

/-- Closed instance of `array_elements_thunked` at a two-element array of
number literals. -/
theorem array_elements_thunked_witness :
    translate_primary Translator.new (.Array [numE 1, numE 2]) =
      .ok (thunkSegs [[Cmd.NumberConst 1], [Cmd.NumberConst 2]] ++ [Cmd.ArrayConst 2]) ∧
    ([numE 1, numE 2] : List Expression).length = 2 :=
  (array_elements_thunked Translator.new [numE 1, numE 2]
    [[Cmd.NumberConst 1], [Cmd.NumberConst 2]]
    (.cons rfl (.cons rfl .nil)))

/-- C7: An identifier that resolves neither locally nor through any ancestor
frame makes translation abort with an error naming the identifier, producing
no instruction stream; in particular a whole-unit compilation of a statement
whose body references an undeclared name fails with that error. -/
theorem unresolved_identifier_fatal :
    (∀ (t : Translator) (name : String), get_bind t name = none →
      translate_identifier t name =
        .error ("could not find bind by \"" ++ name ++ "\"")) ∧
    (∀ name : String, name ≠ "import" →
      get_cmd (.mk [] (varE name)) =
        .error ("could not find bind by \"" ++ name ++ "\"")) := by
  constructor
  · intro t name h
    simp [translate_identifier, h]
  · intro name h
    have h2 : ¬("import" = name) := fun hh => h hh.symm
    simp [get_cmd, Translator.new, translate, register_binds, translate_bodies,
      varE, exprOfPrimary, translate_expression, translate_comparison,
      translate_comparison_rights, translate_additive, translate_additive_rights,
      translate_multitive, translate_multitive_rights, translate_operation,
      translate_operation_rights, translate_primary, translate_identifier,
      get_bind, envLookup, h2, Translator.env, Translator.bind_cnt, Translator.parent]

/-- Closed instance of `unresolved_identifier_fatal` at the name `x`. -/
theorem unresolved_identifier_fatal_witness :
    translate_identifier Translator.new "x" =
      .error ("could not find bind by \"" ++ "x" ++ "\"") ∧
    get_cmd (.mk [] (varE "x")) =
      .error ("could not find bind by \"" ++ "x" ++ "\"") :=
  ⟨unresolved_identifier_fatal.1 Translator.new "x" rfl,
   unresolved_identifier_fatal.2 "x" (by decide)⟩

theorem translate_bodies_eq_flatSegs (t : Translator) :
    ∀ (defs : List (String × Expression)) (bs : List (List Cmd)) (start : Nat),
      List.Forall₂ (fun d b => translate_expression t d.2 = Except.ok b) defs bs →
      translate_bodies t start defs = .ok (flatSegs start bs)
  | [], [], _, _ => rfl
  | (n, body) :: rest, b :: bs, start, h => by
    cases h with
    | cons h1 h2 =>
      simp [translate_bodies, h1,
        translate_bodies_eq_flatSegs t rest bs (start + 1) h2, flatSegs]
  | [], _ :: _, _, h => by cases h
  | _ :: _, [], _, h => by cases h

theorem slExec_flatSegs (bs : List (List Cmd)) :
    ∀ (start : Nat) (tail : List Cmd),
      slExec (flatSegs start bs ++ tail) = markersOf start bs ++ slExec tail := by
  induction bs with
  | nil => intro start tail; simp [flatSegs, markersOf]
  | cons b rest ih =>
    intro start tail
    simp only [flatSegs, markersOf, List.cons_append, List.append_assoc]
    rw [slExec]
    rw [List.drop_left]
    rw [ih]

/-- C3: A struct literal emits every field's body behind a `Label` marker and
finishes with a single `StructAddr` carrying only the field-name-to-bind-id
map; straight-line flow over the emitted stream reaches only the label
markers and the final `StructAddr`, never a field-body instruction, so no
field is evaluated at construction; and a field access emits exactly
`StringConst name; Access; Call 0` — one forcing `Call 0` per access,
mentioning only the accessed field's name. -/
theorem struct_fields_behind_labels (t : Translator)
    (defs : List (String × Expression)) (bs : List (List Cmd))
    (h : List.Forall₂
      (fun d b => translate_expression (structChild t defs) d.2 = Except.ok b) defs bs) :
    translate_primary t (.Struct defs) =
      .ok (flatSegs t.bind_cnt bs ++ [Cmd.StructAddr (build_map [] t.bind_cnt defs)]) ∧
    slExec (flatSegs t.bind_cnt bs ++ [Cmd.StructAddr (build_map [] t.bind_cnt defs)]) =
      markersOf t.bind_cnt bs ++ [Cmd.StructAddr (build_map [] t.bind_cnt defs)] ∧
    (∀ (u : Translator) (name : String) (rest : List OperationRight),
      translate_operation_rights u (.Access name :: rest) =
        ebind (translate_operation_rights u rest) fun rest_cmd =>
          .ok ([Cmd.StringConst name, Cmd.Access, Cmd.Call 0] ++ rest_cmd)) := by
  refine ⟨?_, ?_, ?_⟩
  · have hb := translate_bodies_eq_flatSegs (structChild t defs) defs bs t.bind_cnt h
    simp [translate_primary, fork, Translator.bind_cnt, structChild] at hb ⊢
    simp [hb]
  · rw [slExec_flatSegs]
    simp [slExec]
  · intro u name rest
    rfl

/-- Closed instance of `struct_fields_behind_labels` at a two-field struct of
number literals. -/
theorem struct_fields_behind_labels_witness :
    translate_primary Translator.new (.Struct [("a", numE 1), ("b", numE 2)]) =
      .ok (flatSegs 0 [[Cmd.NumberConst 1], [Cmd.NumberConst 2]] ++
        [Cmd.StructAddr (build_map [] 0 [("a", numE 1), ("b", numE 2)])]) :=
  (struct_fields_behind_labels Translator.new [("a", numE 1), ("b", numE 2)]
    [[Cmd.NumberConst 1], [Cmd.NumberConst 2]]
    (.cons rfl (.cons rfl .nil))).1

theorem lastIdxFrom_shift (name : String) :
    ∀ (defs : List (String × Expression)) (i : Nat),
      lastIdxFrom i name defs = (lastIdxFrom 0 name defs).map (fun j => j + i) := by
  intro defs
  induction defs with
  | nil => intro i; rfl
  | cons d rest ih =>
    intro i
    obtain ⟨n, e⟩ := d
    rw [lastIdxFrom, lastIdxFrom, ih (i + 1), ih 1]
    cases hj : lastIdxFrom 0 name rest with
    | some j =>
      simp
      omega
    | none =>
      by_cases hn : n = name <;> simp [hn]

theorem register_binds_lookup (name : String) :
    ∀ (defs : List (String × Expression)) (env : List (String × Identifier)) (cnt : Nat),
      envLookup (register_binds env cnt defs).1 name =
        (lastIdxFrom 0 name defs).elim (envLookup env name)
          (fun k => some (Identifier.Bind (cnt + k))) := by
  intro defs
  induction defs with
  | nil => intro env cnt; rfl
  | cons d rest ih =>
    intro env cnt
    obtain ⟨n, e⟩ := d
    rw [register_binds, ih, lastIdxFrom, lastIdxFrom_shift name rest 1]
    cases hj : lastIdxFrom 0 name rest with
    | some j =>
      simp
      omega
    | none =>
      by_cases hn : n = name <;> simp [hn, envLookup]

theorem mapLookup_mapInsert (m : List (String × Nat)) (k : String) (v : Nat) (name : String) :
    mapLookup (mapInsert m k v) name = if k = name then some v else mapLookup m name := by
  induction m with
  | nil => rfl
  | cons p rest ih =>
    obtain ⟨k1, v1⟩ := p
    by_cases h1 : k1 = k
    · subst h1
      by_cases h2 : k1 = name <;> simp [mapInsert, mapLookup, h2]
    · by_cases h2 : k1 = name
      · subst h2
        have h3 : ¬(k = k1) := fun hh => h1 hh.symm
        simp [mapInsert, mapLookup, h1, h3, ih]
      · simp [mapInsert, mapLookup, h1, h2, ih]

theorem build_map_lookup (name : String) :
    ∀ (defs : List (String × Expression)) (m : List (String × Nat)) (cnt : Nat),
      mapLookup (build_map m cnt defs) name =
        (lastIdxFrom 0 name defs).elim (mapLookup m name) (fun k => some (cnt + k)) := by
  intro defs
  induction defs with
  | nil => intro m cnt; rfl
  | cons d rest ih =>
    intro m cnt
    obtain ⟨n, e⟩ := d
    rw [build_map, ih, lastIdxFrom, lastIdxFrom_shift name rest 1]
    cases hj : lastIdxFrom 0 name rest with
    | some j =>
      simp
      omega
    | none =>
      by_cases hn : n = name <;> simp [hn, mapLookup_mapInsert]

theorem markersOf_length : ∀ (bs : List (List Cmd)) (start : Nat),
    (markersOf start bs).length = bs.length := by
  intro bs
  induction bs with
  | nil => intro start; rfl
  | cons b rest ih => intro start; simp [markersOf, ih]

/-- C10: Duplicate definitions in one block or struct are not an error: every
definition (duplicates included) is registered under its own fresh id and
emitted as its own label, while any lookup of the duplicated name in the
resulting frame resolves to the id of the occurrence registered last in
source order, and a struct's `StructAddr` map likewise carries the
last-registered id for the name. -/
theorem duplicate_definitions_last_wins :
    (∀ (env : List (String × Identifier)) (cnt : Nat)
      (defs : List (String × Expression)) (name : String),
      envLookup (register_binds env cnt defs).1 name =
        (lastIdxFrom 0 name defs).elim (envLookup env name)
          (fun k => some (Identifier.Bind (cnt + k)))) ∧
    (∀ (m : List (String × Nat)) (cnt : Nat)
      (defs : List (String × Expression)) (name : String),
      mapLookup (build_map m cnt defs) name =
        (lastIdxFrom 0 name defs).elim (mapLookup m name) (fun k => some (cnt + k))) ∧
    (∀ (t : Translator) (defs : List (String × Expression)) (bs : List (List Cmd)),
      List.Forall₂
        (fun d b => translate_expression (structChild t defs) d.2 = Except.ok b) defs bs →
      translate_primary t (.Struct defs) =
        .ok (flatSegs t.bind_cnt bs ++ [Cmd.StructAddr (build_map [] t.bind_cnt defs)]) ∧
      (markersOf t.bind_cnt bs).length = defs.length) := by
  refine ⟨?_, ?_, ?_⟩
  · intro env cnt defs name
    exact register_binds_lookup name defs env cnt
  · intro m cnt defs name
    exact build_map_lookup name defs m cnt
  · intro t defs bs h
    constructor
    · have hb := translate_bodies_eq_flatSegs (structChild t defs) defs bs t.bind_cnt h
      simp [translate_primary, fork, Translator.bind_cnt, structChild] at hb ⊢
      simp [hb]
    · rw [markersOf_length, h.length_eq]

/-- Closed instance of `duplicate_definitions_last_wins` at a struct with two
definitions both named `a`: both are emitted as labels (ids 0 and 1), the
name table and the `StructAddr` map both resolve `a` to the last id 1. -/
theorem duplicate_definitions_last_wins_witness :
    envLookup (register_binds [] 0 [("a", numE 1), ("a", numE 2)]).1 "a" =
      (lastIdxFrom 0 "a" [("a", numE 1), ("a", numE 2)]).elim (envLookup [] "a")
        (fun k => some (Identifier.Bind (0 + k))) ∧
    mapLookup (build_map [] 0 [("a", numE 1), ("a", numE 2)]) "a" =
      (lastIdxFrom 0 "a" [("a", numE 1), ("a", numE 2)]).elim (mapLookup [] "a")
        (fun k => some (0 + k)) ∧
    translate_primary Translator.new (.Struct [("a", numE 1), ("a", numE 2)]) =
      .ok (flatSegs 0 [[Cmd.NumberConst 1], [Cmd.NumberConst 2]] ++
        [Cmd.StructAddr (build_map [] 0 [("a", numE 1), ("a", numE 2)])]) :=
  ⟨duplicate_definitions_last_wins.1 [] 0 [("a", numE 1), ("a", numE 2)] "a",
   duplicate_definitions_last_wins.2.1 [] 0 [("a", numE 1), ("a", numE 2)] "a",
   (duplicate_definitions_last_wins.2.2 Translator.new [("a", numE 1), ("a", numE 2)]
     [[Cmd.NumberConst 1], [Cmd.NumberConst 2]]
     (.cons rfl (.cons rfl .nil))).1⟩

/-- The claim that bind ids are globally unique is false on the code: the
compilation unit `astC1` (an array of two sibling struct literals) emits two
`Label` instructions that both carry id 1, because `fork` copies the parent's
counter value and a child's increments never flow back to the parent. -/
theorem duplicate_label_ids_counterexample :
    get_cmd astC1 = .ok progC1 ∧ countLabelId 1 progC1 = 2 :=
  ⟨rfl, rfl⟩

theorem register_binds_eq :
    ∀ (defs : List (String × Expression)) (env : List (String × Identifier)) (cnt : Nat),
      register_binds env cnt defs = ((enum_ids cnt defs).reverse ++ env, cnt + defs.length) := by
  intro defs
  induction defs with
  | nil => intro env cnt; simp [register_binds, enum_ids]
  | cons d rest ih =>
    intro env cnt
    obtain ⟨n, e⟩ := d
    rw [register_binds, ih]
    simp [enum_ids]
    omega

theorem enum_ids_snd :
    ∀ (defs : List (String × Expression)) (cnt : Nat),
      (enum_ids cnt defs).map Prod.snd =
        (List.range' cnt defs.length).map Identifier.Bind := by
  intro defs
  induction defs with
  | nil => intro cnt; rfl
  | cons d rest ih =>
    intro cnt
    obtain ⟨n, e⟩ := d
    simp [enum_ids, List.range'_succ, ih]

/-- C1 amended: ids are fresh and pairwise distinct only within one
registration pass of a single scope (one `register_binds` run assigns the
consecutive ids `cnt, cnt+1, …` and leaves the counter at `cnt + number of
definitions`), and `fork` starts the child at the parent's current counter
value with an empty local table; the child shares no counter state back, so
ids are not globally unique across sibling scopes, as the counterexample
above shows on a concrete compilation unit. -/
theorem bind_ids_fresh_within_scope_not_global :
    (∀ (defs : List (String × Expression)) (env : List (String × Identifier)) (cnt : Nat),
      register_binds env cnt defs = ((enum_ids cnt defs).reverse ++ env, cnt + defs.length)) ∧
    (∀ (defs : List (String × Expression)) (cnt : Nat),
      (enum_ids cnt defs).map Prod.snd =
        (List.range' cnt defs.length).map Identifier.Bind) ∧
    (∀ (defs : List (String × Expression)) (cnt : Nat),
      ((enum_ids cnt defs).map Prod.snd).Nodup) ∧
    (∀ t : Translator, fork t = .mk [] t.bind_cnt (some t)) := by
  refine ⟨register_binds_eq, enum_ids_snd, ?_, fun t => rfl⟩
  intro defs cnt
  rw [enum_ids_snd]
  exact (List.nodup_range' cnt defs.length).map
    (fun a b hab => by simpa using hab)

/-- C9: `Equal`/`NotEqual` compare structurally per variant with no coercion:
two `Number`, `String`, or `Boolean` values are equal exactly when their
payloads are equal under the payload's own equality, any two values of
different variants compare unequal, and the comparison fold step produces the
`Boolean` of exactly that structural equality (or its negation). -/
theorem equality_structural_per_variant {F L M Fn N C : Type}
    [BEq F] [BEq L] [BEq M] [BEq Fn] [BEq N] [BEq C] :
    (∀ a b : F, tyEq (Ty.Number a : Ty F L M Fn N C) (Ty.Number b) = (a == b)) ∧
    (∀ s1 s2 : String, tyEq (Ty.String s1 : Ty F L M Fn N C) (Ty.String s2) = (s1 == s2)) ∧
    (∀ b1 b2 : Bool, tyEq (Ty.Boolean b1 : Ty F L M Fn N C) (Ty.Boolean b2) = (b1 == b2)) ∧
    (∀ v w : Ty F L M Fn N C, tyTag v ≠ tyTag w → tyEq v w = false) ∧
    (∀ v w : Ty F L M Fn N C,
      compareStep .Equal v w = .Boolean (tyEq v w) ∧
      compareStep .NotEqual v w = .Boolean (!tyEq v w)) := by
  refine ⟨fun a b => rfl, fun s1 s2 => rfl, fun b1 b2 => rfl, ?_, fun v w => ⟨rfl, rfl⟩⟩
  intro v w h
  cases v <;> cases w <;> first | rfl | exact absurd rfl h

/-- Closed instance of `equality_structural_per_variant` with natural-number
payloads: a `Number` and a `String` holding the same digit are unequal (no
coercion). -/
theorem equality_structural_per_variant_witness :
    tyEq (Ty.Number 1 : Ty Nat Unit Unit Unit Unit Unit) (Ty.String "1") = false ∧
    tyEq (Ty.Boolean true : Ty Nat Unit Unit Unit Unit Unit) (Ty.Number 1) = false :=
  ⟨equality_structural_per_variant.2.2.2.1 (Ty.Number 1) (Ty.String "1") (by decide),
   equality_structural_per_variant.2.2.2.1 (Ty.Boolean true) (Ty.Number 1) (by decide)⟩

theorem EnvEquiv.refl (e : List (String × Identifier)) : EnvEquiv e e := fun _ => rfl

theorem EnvEquiv.cons {e1 e2 : List (String × Identifier)} (h : EnvEquiv e1 e2)
    (p : String × Identifier) : EnvEquiv (p :: e1) (p :: e2) := by
  intro name
  obtain ⟨k, v⟩ := p
  by_cases hk : k = name <;> simp [envLookup, hk, h name]

theorem EnvEquiv.append {e1 e2 : List (String × Identifier)} (h : EnvEquiv e1 e2)
    (xs : List (String × Identifier)) : EnvEquiv (xs ++ e1) (xs ++ e2) := by
  induction xs with
  | nil => exact h
  | cons p rest ih => exact ih.cons p

theorem TEquiv.cnt_eq {t1 t2 : Translator} (h : TEquiv t1 t2) :
    t1.bind_cnt = t2.bind_cnt := by
  cases h <;> rfl

theorem TEquiv.env_equiv {t1 t2 : Translator} (h : TEquiv t1 t2) :
    EnvEquiv t1.env t2.env := by
  cases h <;> assumption

theorem TEquiv.mk_replace {t1 t2 : Translator} (h : TEquiv t1 t2)
    {f1 f2 : List (String × Identifier)} (hf : EnvEquiv f1 f2) (d : Nat) :
    TEquiv (.mk f1 d t1.parent) (.mk f2 d t2.parent) := by
  cases h with
  | root he => exact .root hf
  | child he hp => exact .child hf hp

@[simp] theorem Translator.env_mk (e : List (String × Identifier)) (c : Nat)
    (p : Option Translator) : (Translator.mk e c p).env = e := rfl

@[simp] theorem Translator.bind_cnt_mk (e : List (String × Identifier)) (c : Nat)
    (p : Option Translator) : (Translator.mk e c p).bind_cnt = c := rfl

@[simp] theorem Translator.parent_mk (e : List (String × Identifier)) (c : Nat)
    (p : Option Translator) : (Translator.mk e c p).parent = p := rfl

theorem register_binds_fst (env : List (String × Identifier)) (cnt : Nat)
    (defs : List (String × Expression)) :
    (register_binds env cnt defs).1 = (enum_ids cnt defs).reverse ++ env := by
  rw [register_binds_eq]

theorem register_binds_snd (env : List (String × Identifier)) (cnt : Nat)
    (defs : List (String × Expression)) :
    (register_binds env cnt defs).2 = cnt + defs.length := by
  rw [register_binds_eq]

theorem get_bind_equiv {t1 t2 : Translator} (h : TEquiv t1 t2) (name : String) :
    get_bind t1 name = get_bind t2 name := by
  induction h with
  | root he => simp [get_bind, he name]
  | child he hp ih => simp [get_bind, he name, ih]

theorem translate_identifier_equiv {t1 t2 : Translator} (h : TEquiv t1 t2) (name : String) :
    translate_identifier t1 name = translate_identifier t2 name := by
  simp [translate_identifier, get_bind_equiv h name]

theorem fork_equiv {t1 t2 : Translator} (h : TEquiv t1 t2) : TEquiv (fork t1) (fork t2) := by
  have hcnt := h.cnt_eq
  simp only [fork, hcnt]
  exact .child (EnvEquiv.refl _) h

mutual

theorem translate_equiv {t1 t2 : Translator} (h : TEquiv t1 t2) :
    ∀ v : Statement, translate t1 v = translate t2 v
  | .mk defs body => by
    have hcnt : t1.bind_cnt = t2.bind_cnt := h.cnt_eq
    have henv : EnvEquiv t1.env t2.env := h.env_equiv
    have hf : EnvEquiv
        ((enum_ids (t2.bind_cnt + 1) defs).reverse ++
          ("import", Identifier.Bind t2.bind_cnt) :: t1.env)
        ((enum_ids (t2.bind_cnt + 1) defs).reverse ++
          ("import", Identifier.Bind t2.bind_cnt) :: t2.env) :=
      (henv.cons _).append _
    have hX : TEquiv
        (.mk ((enum_ids (t2.bind_cnt + 1) defs).reverse ++
            ("import", Identifier.Bind t2.bind_cnt) :: t1.env)
          (t2.bind_cnt + 1 + defs.length) t1.parent)
        (.mk ((enum_ids (t2.bind_cnt + 1) defs).reverse ++
            ("import", Identifier.Bind t2.bind_cnt) :: t2.env)
          (t2.bind_cnt + 1 + defs.length) t2.parent) :=
      h.mk_replace hf _
    simp only [translate, Translator.env_mk, Translator.bind_cnt_mk, Translator.parent_mk,
      hcnt, register_binds_fst, register_binds_snd,
      translate_bodies_equiv hX defs (t2.bind_cnt + 1),
      translate_expression_equiv hX body]

theorem translate_bodies_equiv {t1 t2 : Translator} (h : TEquiv t1 t2) :
    ∀ (defs : List (String × Expression)) (start : Nat),
      translate_bodies t1 start defs = translate_bodies t2 start defs
  | [], _ => rfl
  | (n, body) :: rest, start => by
    simp only [translate_bodies, translate_expression_equiv h body,
      translate_bodies_equiv h rest (start + 1)]

theorem translate_expression_equiv {t1 t2 : Translator} (h : TEquiv t1 t2) :
    ∀ e : Expression, translate_expression t1 e = translate_expression t2 e
  | .Comparison a => by
    simp only [translate_expression, translate_comparison_equiv h a]
  | .If cond cons alt => by
    simp only [translate_expression, translate_expression_equiv h cond,
      translate_expression_equiv h cons, translate_expression_equiv h alt]

theorem translate_comparison_equiv {t1 t2 : Translator} (h : TEquiv t1 t2) :
    ∀ a : Comparison, translate_comparison t1 a = translate_comparison t2 a
  | .mk left rights => by
    simp only [translate_comparison, translate_additive_equiv h left,
      translate_comparison_rights_equiv h rights]

theorem translate_comparison_rights_equiv {t1 t2 : Translator} (h : TEquiv t1 t2) :
    ∀ rs : List ComparisonRight,
      translate_comparison_rights t1 rs = translate_comparison_rights t2 rs
  | [] => rfl
  | .Equal r :: rest => by
    simp only [translate_comparison_rights, translate_additive_equiv h r,
      translate_comparison_rights_equiv h rest]
  | .NotEqual r :: rest => by
    simp only [translate_comparison_rights, translate_additive_equiv h r,
      translate_comparison_rights_equiv h rest]

theorem translate_additive_equiv {t1 t2 : Translator} (h : TEquiv t1 t2) :
    ∀ a : Additive, translate_additive t1 a = translate_additive t2 a
  | .mk left rights => by
    simp only [translate_additive, translate_multitive_equiv h left,
      translate_additive_rights_equiv h rights]

theorem translate_additive_rights_equiv {t1 t2 : Translator} (h : TEquiv t1 t2) :
    ∀ rs : List AdditiveRight,
      translate_additive_rights t1 rs = translate_additive_rights t2 rs
  | [] => rfl
  | .Add r :: rest => by
    simp only [translate_additive_rights, translate_multitive_equiv h r,
      translate_additive_rights_equiv h rest]
  | .Sub r :: rest => by
    simp only [translate_additive_rights, translate_multitive_equiv h r,
      translate_additive_rights_equiv h rest]

theorem translate_multitive_equiv {t1 t2 : Translator} (h : TEquiv t1 t2) :
    ∀ a : Multitive, translate_multitive t1 a = translate_multitive t2 a
  | .mk left rights => by
    simp only [translate_multitive, translate_operation_equiv h left,
      translate_multitive_rights_equiv h rights]

theorem translate_multitive_rights_equiv {t1 t2 : Translator} (h : TEquiv t1 t2) :
    ∀ rs : List MultitiveRight,
      translate_multitive_rights t1 rs = translate_multitive_rights t2 rs
  | [] => rfl
  | .Mul r :: rest => by
    simp only [translate_multitive_rights, translate_operation_equiv h r,
      translate_multitive_rights_equiv h rest]
  | .Div r :: rest => by
    simp only [translate_multitive_rights, translate_operation_equiv h r,
      translate_multitive_rights_equiv h rest]
  | .Surplus r :: rest => by
    simp only [translate_multitive_rights, translate_operation_equiv h r,
      translate_multitive_rights_equiv h rest]

theorem translate_operation_equiv {t1 t2 : Translator} (h : TEquiv t1 t2) :
    ∀ a : Operation, translate_operation t1 a = translate_operation t2 a
  | .mk left rights => by
    simp only [translate_operation, translate_primary_equiv h left,
      translate_operation_rights_equiv h rights]

theorem translate_operation_rights_equiv {t1 t2 : Translator} (h : TEquiv t1 t2) :
    ∀ rs : List OperationRight,
      translate_operation_rights t1 rs = translate_operation_rights t2 rs
  | [] => rfl
  | .Access name :: rest => by
    simp only [translate_operation_rights, translate_operation_rights_equiv h rest]
  | .Call args :: rest => by
    simp only [translate_operation_rights, translate_args_equiv h args,
      translate_operation_rights_equiv h rest]
  | .Index arg :: rest => by
    simp only [translate_operation_rights, translate_expression_equiv h arg,
      translate_operation_rights_equiv h rest]

theorem translate_args_equiv {t1 t2 : Translator} (h : TEquiv t1 t2) :
    ∀ es : List Expression, translate_args t1 es = translate_args t2 es
  | [] => rfl
  | e :: rest => by
    simp only [translate_args, translate_expression_equiv h e,
      translate_args_equiv h rest]

theorem translate_primary_equiv {t1 t2 : Translator} (h : TEquiv t1 t2) :
    ∀ p : Primary, translate_primary t1 p = translate_primary t2 p
  | .Number v => rfl
  | .String s => rfl
  | .Variable name => by
    simp only [translate_primary, translate_identifier_equiv h name]
  | .Block statement => by
    simp only [translate_primary, translate_equiv (fork_equiv h) statement]
  | .Function args body => by
    have hcnt : t1.bind_cnt = t2.bind_cnt := h.cnt_eq
    have hX : TEquiv (.mk (insert_args [] 0 args) t2.bind_cnt (some t1))
        (.mk (insert_args [] 0 args) t2.bind_cnt (some t2)) :=
      .child (EnvEquiv.refl _) h
    simp only [translate_primary, fork, Translator.bind_cnt_mk, hcnt,
      translate_expression_equiv hX body]
  | .Struct definitions => by
    have hcnt : t1.bind_cnt = t2.bind_cnt := h.cnt_eq
    have hX : TEquiv
        (.mk (register_binds [] t2.bind_cnt definitions).1
          (register_binds [] t2.bind_cnt definitions).2 (some t1))
        (.mk (register_binds [] t2.bind_cnt definitions).1
          (register_binds [] t2.bind_cnt definitions).2 (some t2)) :=
      .child (EnvEquiv.refl _) h
    simp only [translate_primary, fork, Translator.bind_cnt_mk, hcnt,
      translate_bodies_equiv hX definitions t2.bind_cnt]
  | .Array items => by
    simp only [translate_primary, translate_array_equiv h items]

theorem translate_array_equiv {t1 t2 : Translator} (h : TEquiv t1 t2) :
    ∀ es : List Expression, translate_array t1 es = translate_array t2 es
  | [] => rfl
  | item :: rest => by
    simp only [translate_array, translate_expression_equiv h item,
      translate_array_equiv h rest]

end

/-- C8: The emitter is deterministic: two compilations of the same AST from
the same resolver state (identical bind counters, observationally equal name
tables, equivalent parent chains — independent of the tables' internal
representation) yield identical opcode sequences. -/
theorem emitter_deterministic {t1 t2 : Translator} (h : TEquiv t1 t2) (ast : AST) :
    translate t1 ast = translate t2 ast :=
  translate_equiv h ast

/-- Closed instance of `emitter_deterministic`: two representations of the
same resolver state (one with a stale shadowed entry) compile an identifier
occurrence to the same stream. -/
theorem emitter_deterministic_witness :
    translate (.mk [("x", Identifier.Arg 0)] 1 none) (.mk [] (varE "x")) =
      translate (.mk [("x", Identifier.Arg 0), ("x", Identifier.Arg 5)] 1 none)
        (.mk [] (varE "x")) :=
  emitter_deterministic
    (.root (fun name => by by_cases hx : "x" = name <;> simp [envLookup, hx]))
    (.mk [] (varE "x"))

end Spectr
